import Mathlib

/-!
Verification of the brickend template rendering and protected-region merge
engine.

The shallow embedding below is translated from the repository source where it
exists:

  * `TemplateEngine` / `TemplateOptions` / `render` / `renderAsync` come from
    the TypeScript class `TemplateEngine` (constructor stores `templatesDir`;
    `render` computes `join(templatesDir, templateName)`, reads the file at
    that path, and expands it against `data`; `renderAsync` does the same with
    the ejs async flag).  The file system is passed explicitly as an
    association list from path to (parsed) template; `pathJoin` models
    Node's `path.join`, which concatenates and then normalises `.`, `..` and
    empty segments.
  * The template expansion sublanguage (`Tmpl`, `Val`, `evalT`) is modelled
    from the spec: variable substitution, conditionals and iteration over
    list values, failing with a `RenderError` carrying the offending variable
    name when the context lacks a referenced variable.  (The concrete
    expansion engine in the repository is the external ejs dependency, which
    is not part of the repository source.)
  * The protected-region merger (`merge`), two-tier template resolver
    (`resolve`) and generation orchestrator (`processArtifact`) are modelled
    from the spec: the repository source contains no implementation of them.
    Marker lines have the shape `<protected name="X">` / `</protected>`,
    recognised after leading indentation; a file is a list of lines.
-/

/-! ## Path model (Node `path.join` on relative paths) -/

/-- Split a character list on `/` separators. -/
def splitSlash : List Char → List (List Char)
  | [] => [[]]
  | '/' :: rest => [] :: splitSlash rest
  | c :: rest =>
    match splitSlash rest with
    | [] => [[c]]
    | g :: gs => (c :: g) :: gs

/-- Normalise path segments the way Node `path.normalize` does on relative
paths: drop empty and `.` segments, let `..` cancel the preceding segment,
and keep leading `..` segments. -/
def normStack (acc : List String) : List String → List String
  | [] => acc.reverse
  | s :: rest =>
    if s = "" ∨ s = "." then normStack acc rest
    else if s = ".." then
      match acc with
      | [] => normStack [".."] rest
      | ".." :: _ => normStack (s :: acc) rest
      | _ :: as => normStack as rest
    else normStack (s :: acc) rest

/-- Join path segments back with `/`. -/
def joinSegs : List String → String
  | [] => ""
  | [s] => s
  | s :: rest => s ++ "/" ++ joinSegs rest

/-- Model of Node `path.join(a, b)`: concatenate with a separator, then
normalise.  In particular `..` segments in `b` escape the directory `a`. -/
def pathJoin (a b : String) : String :=
  joinSegs (normStack [] ((splitSlash (a.data ++ '/' :: b.data)).map (fun cs => String.mk cs)))

/-! ## Template sublanguage and renderer -/

/-- Values a render context can bind: strings, booleans and lists. -/
inductive Val : Type
  | str (s : String)
  | bool (b : Bool)
  | list (vs : List Val)

/-- A render context is an association list from variable name to value. -/
abbrev Ctx := List (String × Val)

-- String form of a value (lists print comma-separated, as JavaScript
-- arrays do).
mutual

def Val.toStr : Val → String
  | .str s => s
  | .bool b => if b then "true" else "false"
  | .list vs => Val.toStrList vs

def Val.toStrList : List Val → String
  | [] => ""
  | [v] => v.toStr
  | v :: vs => v.toStr ++ "," ++ Val.toStrList vs

end

/-- JavaScript-style truthiness of a value. -/
def Val.truthy : Val → Bool
  | .str s => !s.isEmpty
  | .bool b => b
  | .list _ => true

/-- Template sublanguage: literal text, variable reference, sequencing,
conditional on a context variable, and iteration binding a loop variable
over a list-valued context variable. -/
inductive Tmpl : Type
  | lit (s : String)
  | var (n : String)
  | seq (a b : Tmpl)
  | cond (c : String) (t e : Tmpl)
  | iter (n : String) (x : String) (body : Tmpl)
deriving DecidableEq, Repr

/-- Rendering failures.  A missing context variable and a non-iterable value
both carry the offending variable name; a missing template file carries the
path. -/
inductive RenderError : Type
  | missingVar (n : String)
  | notIterable (n : String)
  | templateNotFound (path : String)
deriving DecidableEq, Repr

/-- Run an element renderer over a list, concatenating outputs and stopping
at the first error. -/
def runList (f : Val → Except RenderError String) : List Val → Except RenderError String
  | [] => .ok ""
  | v :: vs =>
    match f v with
    | .error e => .error e
    | .ok s =>
      match runList f vs with
      | .error e => .error e
      | .ok s2 => .ok (s ++ s2)

/-- Template expansion.  A variable reference not bound by the context fails
with `RenderError.missingVar` carrying the variable name; there is no
empty-string fallback. -/
def evalT : Tmpl → Ctx → Except RenderError String
  | .lit s, _ => .ok s
  | .var n, ctx =>
    match ctx.lookup n with
    | some v => .ok v.toStr
    | none => .error (.missingVar n)
  | .seq a b, ctx =>
    match evalT a ctx with
    | .error e => .error e
    | .ok sa =>
      match evalT b ctx with
      | .error e => .error e
      | .ok sb => .ok (sa ++ sb)
  | .cond c t e, ctx =>
    match ctx.lookup c with
    | none => .error (.missingVar c)
    | some v => if v.truthy then evalT t ctx else evalT e ctx
  | .iter n x body, ctx =>
    match ctx.lookup n with
    | none => .error (.missingVar n)
    | some (.list vs) => runList (fun v => evalT body ((x, v) :: ctx)) vs
    | some _ => .error (.notIterable n)

/-- Ambient state available to the host runtime (clock, process
environment).  Template expansion receives it but, like the source's call
`ejs.render(template, data)`, passes only the template and the data context
to the expansion semantics. -/
structure Ambient : Type where
  now : Nat
  env : List (String × String)
deriving DecidableEq, Repr

/-- Template expansion with the host ambient state threaded through every
evaluation step; mirrors `evalT` and never consults `amb`. -/
def evalAmb (amb : Ambient) : Tmpl → Ctx → Except RenderError String
  | .lit s, _ => .ok s
  | .var n, ctx =>
    match ctx.lookup n with
    | some v => .ok v.toStr
    | none => .error (.missingVar n)
  | .seq a b, ctx =>
    match evalAmb amb a ctx with
    | .error e => .error e
    | .ok sa =>
      match evalAmb amb b ctx with
      | .error e => .error e
      | .ok sb => .ok (sa ++ sb)
  | .cond c t e, ctx =>
    match ctx.lookup c with
    | none => .error (.missingVar c)
    | some v => if v.truthy then evalAmb amb t ctx else evalAmb amb e ctx
  | .iter n x body, ctx =>
    match ctx.lookup n with
    | none => .error (.missingVar n)
    | some (.list vs) => runList (fun v => evalAmb amb body ((x, v) :: ctx)) vs
    | some _ => .error (.notIterable n)

/-- Template expansion along the async compilation path
(`ejs.render(template, data, { async: true })`); the sublanguage contains no
awaiting construct, so the equations mirror `evalT`. -/
def evalAsync : Tmpl → Ctx → Except RenderError String
  | .lit s, _ => .ok s
  | .var n, ctx =>
    match ctx.lookup n with
    | some v => .ok v.toStr
    | none => .error (.missingVar n)
  | .seq a b, ctx =>
    match evalAsync a ctx with
    | .error e => .error e
    | .ok sa =>
      match evalAsync b ctx with
      | .error e => .error e
      | .ok sb => .ok (sa ++ sb)
  | .cond c t e, ctx =>
    match ctx.lookup c with
    | none => .error (.missingVar c)
    | some v => if v.truthy then evalAsync t ctx else evalAsync e ctx
  | .iter n x body, ctx =>
    match ctx.lookup n with
    | none => .error (.missingVar n)
    | some (.list vs) => runList (fun v => evalAsync body ((x, v) :: ctx)) vs
    | some _ => .error (.notIterable n)

/-- The template directory tree on disk: path to parsed template content. -/
abbrev TemplateFS := List (String × Tmpl)

/-- Options of a render call, from the source interface `TemplateOptions`. -/
structure TemplateOptions : Type where
  data : Ctx
  templateName : String

/-- The engine class; its only field is the template directory fixed at
construction, from the source class `TemplateEngine`. -/
structure TemplateEngine : Type where
  templatesDir : String
deriving DecidableEq, Repr

/-- `TemplateEngine.render`: join the directory with the template name, read
the file at the joined path, expand it against `data`. -/
def TemplateEngine.render (e : TemplateEngine) (fs : TemplateFS) (o : TemplateOptions) :
    Except RenderError String :=
  let templatePath := pathJoin e.templatesDir o.templateName
  match fs.lookup templatePath with
  | none => .error (.templateNotFound templatePath)
  | some t => evalT t o.data

/-- `TemplateEngine.renderAsync`: same path computation and file read, with
the async expansion. -/
def TemplateEngine.renderAsync (e : TemplateEngine) (fs : TemplateFS) (o : TemplateOptions) :
    Except RenderError String :=
  let templatePath := pathJoin e.templatesDir o.templateName
  match fs.lookup templatePath with
  | none => .error (.templateNotFound templatePath)
  | some t => evalAsync t o.data

/-- Render with the method's state transition made explicit: the source
method body contains no assignment to `this`, so the post-state equals the
pre-state. -/
def TemplateEngine.renderM (e : TemplateEngine) (fs : TemplateFS) (o : TemplateOptions) :
    Except RenderError String × TemplateEngine :=
  (e.render fs o, e)

/-- `renderAsync` with the explicit state transition. -/
def TemplateEngine.renderAsyncM (e : TemplateEngine) (fs : TemplateFS) (o : TemplateOptions) :
    Except RenderError String × TemplateEngine :=
  (e.renderAsync fs o, e)

/-- Render from within a host runtime holding ambient state. -/
def renderAmb (amb : Ambient) (e : TemplateEngine) (fs : TemplateFS) (o : TemplateOptions) :
    Except RenderError String :=
  let templatePath := pathJoin e.templatesDir o.templateName
  match fs.lookup templatePath with
  | none => .error (.templateNotFound templatePath)
  | some t => evalAmb amb t o.data

/-- Write a template file (used to state that renders observe the file
system's then-current content). -/
def TemplateFS.write (fs : TemplateFS) (p : String) (t : Tmpl) : TemplateFS :=
  (p, t) :: fs

/-! ## Protected-region merger (modelled from the spec) -/

/-- Is the character indentation whitespace. -/
def isWsChar (c : Char) : Bool := c = ' ' || c = '\t'

/-- Characters opening a protected-region start marker. -/
def protectedOpen : List Char := "<protected name=\"".data

/-- Characters closing a protected-region start marker. -/
def protectedClose : List Char := "\">".data

/-- Characters of a protected-region end marker. -/
def protectedEnd : List Char := "</protected>".data

/-- Modelled from the spec: recognise a protected-region start marker line
`<protected name="X">` (after leading indentation) and extract its name.
The repository source contains no merger implementation. -/
def parseStartName (line : String) : Option String :=
  let t := line.data.dropWhile isWsChar
  if protectedOpen.isPrefixOf t then
    let rest := t.drop protectedOpen.length
    let name := rest.takeWhile (fun c => !(c = '"'))
    let after := rest.drop name.length
    if protectedClose.isPrefixOf after ∧ name ≠ [] then some (String.mk name) else none
  else none

/-- Modelled from the spec: recognise a protected-region end marker line
`</protected>` (after leading indentation). -/
def isEndLine (line : String) : Bool :=
  protectedEnd.isPrefixOf (line.data.dropWhile isWsChar)

/-- A parsed file is a sequence of segments: raw lines outside protected
regions, and protected blocks keeping their marker lines verbatim. -/
inductive Seg : Type
  | raw (line : String)
  | block (startLine : String) (name : String) (body : List String) (endLine : String)
deriving DecidableEq, Repr

/-- Failure of the merger: a start marker (carrying the region name) with no
matching end marker. -/
inductive MergeError : Type
  | malformed (name : String)
deriving DecidableEq, Repr

/-- Modelled from the spec: single-pass scan of a file's lines.  Outside a
block, a start marker line opens a block; inside one, lines accumulate until
the matching end marker; reaching the end of the file inside a block fails
with `MergeError.malformed`. -/
def scanLines : List String → List Seg → Option (String × String × List String) →
    Except MergeError (List Seg)
  | [], acc, none => .ok acc.reverse
  | [], _, some (_, n, _) => .error (.malformed n)
  | l :: rest, acc, none =>
    match parseStartName l with
    | some n => scanLines rest acc (some (l, n, []))
    | none => scanLines rest (.raw l :: acc) none
  | l :: rest, acc, some (st, n, body) =>
    if isEndLine l then scanLines rest (.block st n body.reverse l :: acc) none
    else scanLines rest acc (some (st, n, l :: body))

/-- Parse a file (a list of lines) into segments. -/
def parseLines (ls : List String) : Except MergeError (List Seg) :=
  scanLines ls [] none

/-- Modelled from the spec: does the file contain a protected-region start
marker with no matching end marker. -/
def scanUnmatched : List String → Bool → Bool
  | [], inBlock => inBlock
  | l :: rest, false =>
    match parseStartName l with
    | some _ => scanUnmatched rest true
    | none => scanUnmatched rest false
  | l :: rest, true =>
    if isEndLine l then scanUnmatched rest false else scanUnmatched rest true

/-- A file has an unmatched start marker when the scan ends inside a block. -/
def hasUnmatchedStart (ls : List String) : Bool :=
  scanUnmatched ls false

/-- Emit a segment back as lines. -/
def renderDoc : List Seg → List String
  | [] => []
  | .raw l :: s => l :: renderDoc s
  | .block st _ b e :: s => st :: (b ++ e :: renderDoc s)

/-- The (name, body) pairs of the protected blocks of a parse, in order. -/
def blockBodies : List Seg → List (String × List String)
  | [] => []
  | .raw _ :: s => blockBodies s
  | .block _ n b _ :: s => (n, b) :: blockBodies s

/-- The protected-block names of a parse, in order. -/
def blockNames (segs : List Seg) : List String :=
  (blockBodies segs).map Prod.fst

/-- Modelled from the spec: replace each block's placeholder body with the
previously extracted body of the same name, keeping the new marker lines
(and hence the new surrounding indentation); blocks with no previously
extracted body keep their template-supplied default. -/
def substSegs (m : List (String × List String)) : List Seg → List Seg
  | [] => []
  | .raw l :: s => .raw l :: substSegs m s
  | .block st n b e :: s => .block st n ((m.lookup n).getD b) e :: substSegs m s

/-- Result of a merge: the final text plus the orphaned (name, body) pairs
whose names the new template no longer declares. -/
structure MergeResult : Type where
  text : List String
  orphaned : List (String × List String)
deriving DecidableEq, Repr

/-- Modelled from the spec: `merge(existingFileText, newlyRenderedText)`.
Scan both texts for protected regions, substitute previously extracted
bodies into the new text's matching regions, and report old names absent
from the new text as orphaned. -/
def merge (existingFileText newlyRenderedText : List String) :
    Except MergeError MergeResult :=
  match parseLines existingFileText with
  | .error e => .error e
  | .ok oldSegs =>
    match parseLines newlyRenderedText with
    | .error e => .error e
    | .ok newSegs =>
      .ok ⟨renderDoc (substSegs (blockBodies oldSegs) newSegs),
           (blockBodies oldSegs).filter (fun p => !(blockNames newSegs).contains p.1)⟩

/-- The names of the protected blocks a file declares (empty on a scan
failure). -/
def declaredNames (ls : List String) : List String :=
  match parseLines ls with
  | .ok segs => blockNames segs
  | .error _ => []

/-- The body held by the file's protected block of the given name. -/
def lookupBody (ls : List String) (X : String) : Option (List String) :=
  match parseLines ls with
  | .ok segs => (blockBodies segs).lookup X
  | .error _ => none

/-- The start and end marker lines of the file's protected block of the
given name. -/
def segsMarkers : List Seg → String → Option (String × String)
  | [], _ => none
  | .raw _ :: s, X => segsMarkers s X
  | .block st n _ e :: s, X => if n = X then some (st, e) else segsMarkers s X

/-- The marker lines surrounding the named block of a file. -/
def lookupMarkers (ls : List String) (X : String) : Option (String × String) :=
  match parseLines ls with
  | .ok segs => segsMarkers segs X
  | .error _ => none

/-! ## Generation orchestrator (modelled from the spec) -/

/-- The project output directory: an association list from path to file
lines. -/
abbrev FileSys := List (String × List String)

/-- Read a file. -/
def readFile (fs : FileSys) (p : String) : Option (List String) :=
  fs.lookup p

/-- Write a file (the new entry shadows any previous one). -/
def writeFile (fs : FileSys) (p : String) (c : List String) : FileSys :=
  (p, c) :: fs

/-- Per-artifact outcome collected into the generation report. -/
inductive Outcome : Type
  | created
  | updated
  | unchanged
  | failed (e : MergeError)
deriving DecidableEq, Repr

/-- Modelled from the spec: the orchestrator's step for one artifact.  If no
file exists at the target path the rendered text is written; otherwise the
existing file is merged with the rendered text, a merge failure is recorded
as a failed artifact with the file left untouched, and an unchanged result
skips the write. -/
def processArtifact (fs : FileSys) (path : String) (rendered : List String) :
    Outcome × FileSys :=
  match readFile fs path with
  | none => (.created, writeFile fs path rendered)
  | some old =>
    match merge old rendered with
    | .error e => (.failed e, fs)
    | .ok r =>
      if r.text = old then (.unchanged, fs)
      else (.updated, writeFile fs path r.text)

/-- A rendered text declares no protected block name twice (the spec's
ProtectedBlock is "identified by a unique tag string"). -/
def NodupNames (ls : List String) : Prop :=
  ∀ segs, parseLines ls = .ok segs → (blockNames segs).Nodup

/-! ## Two-tier template resolver (modelled from the spec) -/

/-- Failure of template resolution. -/
inductive ResolveError : Type
  | templateNotFound (artifactKind stack : String)
deriving DecidableEq, Repr

/-- Does the given template path exist on disk. -/
def pathExists (tree : List String) (p : String) : Bool :=
  tree.any (fun q => q == p)

/-- The user-override location for a (kind, stack) pair. -/
def userTemplatePath (stack artifactKind : String) : String :=
  "templates_user/" ++ stack ++ "/" ++ artifactKind

/-- The built-in default location for a (kind, stack) pair. -/
def defaultTemplatePath (stack artifactKind : String) : String :=
  "core/integrations/" ++ stack ++ "/" ++ artifactKind

/-- Modelled from the spec: `resolve(artifactKind, stack)` searches the
user-override tree first, falls back to the built-in default tree, and fails
with `TemplateNotFoundError` when neither location has a match.  `tree` is
the set of template paths present on disk. -/
def resolve (tree : List String) (artifactKind stack : String) :
    Except ResolveError String :=
  if pathExists tree (userTemplatePath stack artifactKind) then
    .ok (userTemplatePath stack artifactKind)
  else if pathExists tree (defaultTemplatePath stack artifactKind) then
    .ok (defaultTemplatePath stack artifactKind)
  else
    .error (.templateNotFound artifactKind stack)

/-! ## Specification predicates -/

/-- Well-formed segment: a raw line is not a start marker; a block's start
line parses to its name, its body contains no end-marker line, and its end
line is an end marker. -/
def SegWf : Seg → Prop
  | .raw l => parseStartName l = none
  | .block st n b e =>
    parseStartName st = some n ∧ b.all (fun x => !isEndLine x) = true ∧ isEndLine e = true

/-- Every segment of the parse is well formed. -/
def DocWf (segs : List Seg) : Prop := ∀ s ∈ segs, SegWf s

/-- Derivation relating a list of lines to its segmentation. -/
inductive Parses : List String → List Seg → Prop
  | nil : Parses [] []
  | raw {l : String} {rest : List String} {segs : List Seg} :
      parseStartName l = none → Parses rest segs → Parses (l :: rest) (.raw l :: segs)
  | block {l n e : String} {b r : List String} {segs : List Seg} :
      parseStartName l = some n → b.all (fun x => !isEndLine x) = true →
      isEndLine e = true → Parses r segs →
      Parses (l :: (b ++ e :: r)) (.block l n b e :: segs)

/-- Conclusion of the scanner soundness lemma, by scanner mode. -/
def ScanConcl (ls : List String) (acc : List Seg)
    (st : Option (String × String × List String)) (segs : List Seg) : Prop :=
  match st with
  | none => ∃ tail, segs = acc.reverse ++ tail ∧ Parses ls tail
  | some (stl, n, rb) =>
    ∃ b e r tail, ls = b ++ e :: r ∧ b.all (fun x => !isEndLine x) = true ∧
      isEndLine e = true ∧ Parses r tail ∧
      segs = acc.reverse ++ Seg.block stl n (rb.reverse ++ b) e :: tail

/-- Evaluation of the template under the context dynamically reaches a
reference to the variable `n` that the context in force there does not
bind. -/
inductive UnboundUse : Tmpl → Ctx → String → Prop
  | var {n : String} {ctx : Ctx} :
      ctx.lookup n = none → UnboundUse (.var n) ctx n
  | seq_left {a b : Tmpl} {ctx : Ctx} {n : String} :
      UnboundUse a ctx n → UnboundUse (.seq a b) ctx n
  | seq_right {a b : Tmpl} {ctx : Ctx} {n s : String} :
      evalT a ctx = .ok s → UnboundUse b ctx n → UnboundUse (.seq a b) ctx n
  | cond_scrut {c : String} {t e : Tmpl} {ctx : Ctx} :
      ctx.lookup c = none → UnboundUse (.cond c t e) ctx c
  | cond_then {c : String} {t e : Tmpl} {ctx : Ctx} {v : Val} {n : String} :
      ctx.lookup c = some v → v.truthy = true → UnboundUse t ctx n →
      UnboundUse (.cond c t e) ctx n
  | cond_else {c : String} {t e : Tmpl} {ctx : Ctx} {v : Val} {n : String} :
      ctx.lookup c = some v → v.truthy = false → UnboundUse e ctx n →
      UnboundUse (.cond c t e) ctx n
  | iter_scrut {i x : String} {body : Tmpl} {ctx : Ctx} :
      ctx.lookup i = none → UnboundUse (.iter i x body) ctx i
  | iter_body {i x : String} {body : Tmpl} {ctx : Ctx} {pre post : List Val}
      {v : Val} {s n : String} :
      ctx.lookup i = some (.list (pre ++ v :: post)) →
      runList (fun w => evalT body ((x, w) :: ctx)) pre = .ok s →
      UnboundUse body ((x, v) :: ctx) n → UnboundUse (.iter i x body) ctx n

/-! ## Scanner lemmas -/

/-- Membership from a successful association-list lookup. -/
theorem mem_of_lookup {β : Type} {l : List (String × β)} {a : String} {b : β}
    (h : l.lookup a = some b) : (a, b) ∈ l := by
  induction l with
  | nil => simp [List.lookup] at h
  | cons p rest ih =>
    obtain ⟨k, v⟩ := p
    rw [List.lookup_cons] at h
    cases hak : a == k with
    | true =>
      rw [hak] at h
      cases h
      have : a = k := by exact beq_iff_eq.mp hak
      subst this
      exact List.mem_cons_self _ _
    | false =>
      rw [hak] at h
      exact List.mem_cons_of_mem _ (ih h)

/-- Soundness of the scanner: a successful scan yields, beyond the reversed
accumulator, a derivable segmentation of the remaining lines. -/
theorem scan_sound :
    ∀ (ls : List String) (acc : List Seg) (st : Option (String × String × List String))
      (segs : List Seg), scanLines ls acc st = .ok segs → ScanConcl ls acc st segs := by
  intro ls
  induction ls with
  | nil =>
    intro acc st segs h
    match st with
    | none =>
      simp only [scanLines, Except.ok.injEq] at h
      exact ⟨[], by simp [← h], Parses.nil⟩
    | some (stl, n, rb) => simp [scanLines] at h
  | cons l rest ih =>
    intro acc st segs h
    match st with
    | none =>
      simp only [scanLines] at h
      cases hp : parseStartName l with
      | some n =>
        rw [hp] at h
        obtain ⟨b, e, r, tail, hrest, hball, hend, hpar, hsegs⟩ :=
          ih acc (some (l, n, [])) segs h
        refine ⟨Seg.block l n b e :: tail, ?_, ?_⟩
        · simpa using hsegs
        · rw [hrest]
          exact Parses.block hp hball hend hpar
      | none =>
        rw [hp] at h
        obtain ⟨tail, hsegs, hpar⟩ := ih (.raw l :: acc) none segs h
        refine ⟨Seg.raw l :: tail, ?_, Parses.raw hp hpar⟩
        rw [hsegs]
        simp
    | some (stl, n, rb) =>
      simp only [scanLines] at h
      cases hE : isEndLine l with
      | true =>
        rw [hE] at h
        simp only [if_true] at h
        obtain ⟨tail, hsegs, hpar⟩ := ih (.block stl n rb.reverse l :: acc) none segs h
        refine ⟨[], l, rest, tail, rfl, rfl, hE, hpar, ?_⟩
        rw [hsegs]
        simp
      | false =>
        rw [hE] at h
        simp only [if_false, Bool.false_eq_true] at h
        obtain ⟨b', e, r, tail, hrest, hball, hend, hpar, hsegs⟩ :=
          ih acc (some (stl, n, l :: rb)) segs h
        refine ⟨l :: b', e, r, tail, by simp [hrest], ?_, hend, hpar, ?_⟩
        · simp [hE, hball]
        · rw [hsegs]
          simp


/-- Completeness helper: scanning in block mode consumes the body up to the
end marker and records the block. -/
theorem scan_block_mode :
    ∀ (b : List String), b.all (fun x => !isEndLine x) = true →
      ∀ (e : String), isEndLine e = true →
        ∀ (r : List String) (acc : List Seg) (stl n : String) (rb : List String),
          scanLines (b ++ e :: r) acc (some (stl, n, rb)) =
            scanLines r (.block stl n (rb.reverse ++ b) e :: acc) none := by
  intro b
  induction b with
  | nil =>
    intro _ e he r acc stl n rb
    simp [scanLines, he]
  | cons x b' ih =>
    intro hall e he r acc stl n rb
    simp only [List.all_cons, Bool.and_eq_true, Bool.not_eq_true'] at hall
    have step : scanLines ((x :: b') ++ e :: r) acc (some (stl, n, rb)) =
        scanLines (b' ++ e :: r) acc (some (stl, n, x :: rb)) := by
      simp [scanLines, hall.1]
    rw [step, ih hall.2 e he r acc stl n (x :: rb)]
    simp

/-- Completeness of the scanner with respect to the derivation relation. -/
theorem parses_scan {ls : List String} {segs : List Seg} (h : Parses ls segs) :
    ∀ acc, scanLines ls acc none = .ok (acc.reverse ++ segs) := by
  induction h with
  | nil => intro acc; simp [scanLines]
  | raw hp _ ih =>
    intro acc
    simp only [scanLines, hp]
    rw [ih]
    simp
  | block hp hb he _ ih =>
    intro acc
    simp only [scanLines, hp]
    rw [scan_block_mode _ hb _ he]
    rw [ih]
    simp

/-- A derivable segmentation is what `parseLines` returns. -/
theorem parseLines_of_parses {ls : List String} {segs : List Seg}
    (h : Parses ls segs) : parseLines ls = .ok segs := by
  simpa [parseLines] using parses_scan h []

/-- A successful `parseLines` yields a derivable segmentation. -/
theorem parses_of_parseLines {ls : List String} {segs : List Seg}
    (h : parseLines ls = .ok segs) : Parses ls segs := by
  obtain ⟨tail, hsegs, hpar⟩ := scan_sound ls [] none segs h
  simpa [hsegs] using hpar

/-- Rendering a parse reproduces the original lines. -/
theorem renderDoc_of_parses {ls : List String} {segs : List Seg}
    (h : Parses ls segs) : renderDoc segs = ls := by
  induction h with
  | nil => rfl
  | raw hp _ ih => simp [renderDoc, ih]
  | block hp hb he _ ih => simp [renderDoc, ih]

/-- A parse is well formed. -/
theorem docWf_of_parses {ls : List String} {segs : List Seg}
    (h : Parses ls segs) : DocWf segs := by
  induction h with
  | nil => intro s hs; cases hs
  | raw hp _ ih =>
    intro s hs
    rcases List.mem_cons.mp hs with rfl | hs'
    · exact hp
    · exact ih s hs'
  | block hp hb he _ ih =>
    intro s hs
    rcases List.mem_cons.mp hs with rfl | hs'
    · exact ⟨hp, hb, he⟩
    · exact ih s hs'

/-- A well-formed segmentation parses back from its rendering. -/
theorem parses_renderDoc_of_wf :
    ∀ {segs : List Seg}, DocWf segs → Parses (renderDoc segs) segs := by
  intro segs
  induction segs with
  | nil => intro _; exact Parses.nil
  | cons s rest ih =>
    intro hwf
    have hs : SegWf s := hwf s (List.mem_cons_self _ _)
    have hrest : DocWf rest := fun x hx => hwf x (List.mem_cons_of_mem _ hx)
    cases s with
    | raw l => exact Parses.raw hs (ih hrest)
    | block st n b e =>
      obtain ⟨h1, h2, h3⟩ := hs
      exact Parses.block h1 h2 h3 (ih hrest)

/-- A (name, body) pair of `blockBodies` comes from a block segment. -/
theorem blockBodies_mem :
    ∀ {segs : List Seg} {p : String × List String}, p ∈ blockBodies segs →
      ∃ st e, Seg.block st p.1 p.2 e ∈ segs := by
  intro segs
  induction segs with
  | nil => intro p h; cases h
  | cons s rest ih =>
    intro p h
    cases s with
    | raw l =>
      obtain ⟨st, e, hmem⟩ := ih (by simpa [blockBodies] using h)
      exact ⟨st, e, List.mem_cons_of_mem _ hmem⟩
    | block st n b e =>
      simp only [blockBodies, List.mem_cons] at h
      rcases h with rfl | h'
      · exact ⟨st, e, List.mem_cons_self _ _⟩
      · obtain ⟨st', e', hmem⟩ := ih h'
        exact ⟨st', e', List.mem_cons_of_mem _ hmem⟩

/-- Bodies extracted from a well-formed parse contain no end-marker line. -/
theorem bodies_wf {segs : List Seg} (h : DocWf segs) :
    ∀ p ∈ blockBodies segs, (p.2.all fun x => !isEndLine x) = true := by
  intro p hp
  obtain ⟨st, e, hmem⟩ := blockBodies_mem hp
  exact (h _ hmem).2.1

/-- Substitution preserves well-formedness when every substituted body is
free of end-marker lines. -/
theorem substSegs_wf {m : List (String × List String)} :
    ∀ {segs : List Seg}, DocWf segs →
      (∀ p ∈ m, (p.2.all fun x => !isEndLine x) = true) →
      DocWf (substSegs m segs) := by
  intro segs
  induction segs with
  | nil => intro _ _ s hs; cases hs
  | cons s rest ih =>
    intro hwf hm x hx
    have hs : SegWf s := hwf s (List.mem_cons_self _ _)
    have hrest : DocWf rest := fun y hy => hwf y (List.mem_cons_of_mem _ hy)
    cases s with
    | raw l =>
      rcases List.mem_cons.mp hx with rfl | hx'
      · exact hs
      · exact ih hrest hm x hx'
    | block st n b e =>
      rcases List.mem_cons.mp hx with rfl | hx'
      · obtain ⟨h1, h2, h3⟩ := hs
        refine ⟨h1, ?_, h3⟩
        cases hl : m.lookup n with
        | none => simpa [hl] using h2
        | some T =>
          have := hm (n, T) (mem_of_lookup hl)
          simpa [hl] using this
      · exact ih hrest hm x hx'

/-- Substitution does not change the block names. -/
theorem blockNames_substSegs (m : List (String × List String)) :
    ∀ segs, blockNames (substSegs m segs) = blockNames segs := by
  intro segs
  induction segs with
  | nil => rfl
  | cons s rest ih =>
    cases s with
    | raw l =>
      simp only [blockNames, substSegs, blockBodies] at ih ⊢
      exact ih
    | block st n b e =>
      simp only [blockNames, substSegs, blockBodies, List.map_cons] at ih ⊢
      rw [ih]

/-- Substitution does not change a block's marker lines. -/
theorem segsMarkers_substSegs (m : List (String × List String)) (X : String) :
    ∀ segs, segsMarkers (substSegs m segs) X = segsMarkers segs X := by
  intro segs
  induction segs with
  | nil => rfl
  | cons s rest ih =>
    cases s with
    | raw l => simpa [substSegs, segsMarkers] using ih
    | block st n b e =>
      by_cases hn : n = X
      · simp [substSegs, segsMarkers, hn]
      · simpa [substSegs, segsMarkers, hn] using ih

/-- After substitution, a declared name looks up to the substituted body. -/
theorem bodies_substSegs_lookup_some {m : List (String × List String)}
    {X : String} {T : List String} (hT : m.lookup X = some T) :
    ∀ segs, X ∈ blockNames segs →
      (blockBodies (substSegs m segs)).lookup X = some T := by
  intro segs
  induction segs with
  | nil => intro h; cases h
  | cons s rest ih =>
    intro hX
    cases s with
    | raw l =>
      simp only [blockNames, blockBodies] at hX
      simpa [substSegs, blockBodies] using ih hX
    | block st n b e =>
      by_cases hn : X = n
      · subst hn
        simp [substSegs, blockBodies, List.lookup_cons, hT]
      · have hX' : X ∈ blockNames rest := by
          simpa [blockNames, blockBodies, hn] using hX
        have hne : (X == n) = false := by
          simp [hn]
        simp [substSegs, blockBodies, List.lookup_cons, hne]
        simpa [blockBodies] using ih hX'

/-- Substitution with a mapping lacking the name leaves its body lookup
unchanged. -/
theorem bodies_substSegs_lookup_none {m : List (String × List String)}
    {X : String} (hT : m.lookup X = none) :
    ∀ segs, (blockBodies (substSegs m segs)).lookup X = (blockBodies segs).lookup X := by
  intro segs
  induction segs with
  | nil => rfl
  | cons s rest ih =>
    cases s with
    | raw l => simpa [substSegs, blockBodies] using ih
    | block st n b e =>
      by_cases hn : X = n
      · subst hn
        simp [substSegs, blockBodies, List.lookup_cons, hT]
      · have hne : (X == n) = false := by simp [hn]
        simpa [substSegs, blockBodies, List.lookup_cons, hne] using ih

/-- Substituting with a mapping whose head key none of the blocks declares
equals substituting with its tail. -/
theorem substSegs_shadow {X : String} {T : List String}
    {m : List (String × List String)} :
    ∀ {segs : List Seg}, X ∉ blockNames segs →
      substSegs ((X, T) :: m) segs = substSegs m segs := by
  intro segs
  induction segs with
  | nil => intro _; rfl
  | cons s rest ih =>
    intro hX
    cases s with
    | raw l =>
      have hX' : X ∉ blockNames rest := by
        simpa [blockNames, blockBodies] using hX
      simp [substSegs, ih hX']
    | block st n b e =>
      have hX2 : ¬X = n ∧ X ∉ blockNames rest := by
        simpa [blockNames, blockBodies, not_or] using hX
      have hne : (n == X) = false := beq_eq_false_iff_ne.mpr (Ne.symm hX2.1)
      simp [substSegs, List.lookup_cons, hne, ih hX2.2]

/-- Self-substitution under unique block names is the identity. -/
theorem substSegs_self :
    ∀ {segs : List Seg}, (blockNames segs).Nodup →
      substSegs (blockBodies segs) segs = segs := by
  intro segs
  induction segs with
  | nil => intro _; rfl
  | cons s rest ih =>
    intro hnd
    cases s with
    | raw l =>
      have : (blockNames rest).Nodup := by simpa [blockNames, blockBodies] using hnd
      simp [substSegs, blockBodies, ih this]
    | block st n b e =>
      have hnd' : n ∉ blockNames rest ∧ (blockNames rest).Nodup := by
        simpa [blockNames, blockBodies, List.nodup_cons] using hnd
      simp only [substSegs, blockBodies, List.lookup_cons, beq_self_eq_true,
        Option.getD_some]
      rw [substSegs_shadow hnd'.1, ih hnd'.2]

/-- Substituting the bodies of a substitution back into the same blocks,
under unique block names, gives the first substitution again. -/
theorem substSegs_twice {m : List (String × List String)} :
    ∀ {segs : List Seg}, (blockNames segs).Nodup →
      substSegs (blockBodies (substSegs m segs)) segs = substSegs m segs := by
  intro segs
  induction segs with
  | nil => intro _; rfl
  | cons s rest ih =>
    intro hnd
    cases s with
    | raw l =>
      have : (blockNames rest).Nodup := by simpa [blockNames, blockBodies] using hnd
      simp [substSegs, blockBodies, ih this]
    | block st n b e =>
      have hnd' : n ∉ blockNames rest ∧ (blockNames rest).Nodup := by
        simpa [blockNames, blockBodies, List.nodup_cons] using hnd
      simp only [substSegs, blockBodies, List.lookup_cons, beq_self_eq_true,
        Option.getD_some]
      rw [substSegs_shadow hnd'.1, ih hnd'.2]

/-- A successful merge decomposes into two parses and a substitution. -/
theorem merge_eq {old new : List String} {r : MergeResult}
    (h : merge old new = .ok r) :
    ∃ oldSegs newSegs, parseLines old = .ok oldSegs ∧ parseLines new = .ok newSegs ∧
      r = ⟨renderDoc (substSegs (blockBodies oldSegs) newSegs),
           (blockBodies oldSegs).filter (fun p => !(blockNames newSegs).contains p.1)⟩ := by
  unfold merge at h
  cases h1 : parseLines old with
  | error e => rw [h1] at h; cases h
  | ok oldSegs =>
    rw [h1] at h
    cases h2 : parseLines new with
    | error e => rw [h2] at h; cases h
    | ok newSegs =>
      rw [h2] at h
      cases h
      exact ⟨oldSegs, newSegs, rfl, rfl, rfl⟩

/-- The merged text parses back to the substituted segmentation. -/
theorem merge_text_parses {old new : List String} {oldSegs newSegs : List Seg}
    (h1 : parseLines old = .ok oldSegs) (h2 : parseLines new = .ok newSegs) :
    parseLines (renderDoc (substSegs (blockBodies oldSegs) newSegs)) =
      .ok (substSegs (blockBodies oldSegs) newSegs) := by
  apply parseLines_of_parses
  apply parses_renderDoc_of_wf
  exact substSegs_wf (docWf_of_parses (parses_of_parseLines h2))
    (bodies_wf (docWf_of_parses (parses_of_parseLines h1)))

/-! ## Claim theorems: protected-region merger -/

/-- C1.  Protected-region round-trip: when the existing file's protected
block named `X` holds body `T` and the newly rendered text still declares a
block named `X`, the merged output's block `X` holds exactly `T`, and its
surrounding marker lines (hence their indentation) are the new text's, not
the old text's. -/
theorem protected_round_trip (old new : List String) (r : MergeResult)
    (X : String) (T : List String)
    (hm : merge old new = .ok r) (hT : lookupBody old X = some T)
    (hX : X ∈ declaredNames new) :
    lookupBody r.text X = some T ∧ lookupMarkers r.text X = lookupMarkers new X := by
  obtain ⟨oldSegs, newSegs, h1, h2, rfl⟩ := merge_eq hm
  have hTl : (blockBodies oldSegs).lookup X = some T := by
    simpa [lookupBody, h1] using hT
  have hXn : X ∈ blockNames newSegs := by
    simpa [declaredNames, h2] using hX
  have hp := merge_text_parses h1 h2
  constructor
  · simp only [lookupBody, hp]
    exact bodies_substSegs_lookup_some hTl newSegs hXn
  · simp only [lookupMarkers, hp, h2]
    exact segsMarkers_substSegs _ X newSegs

/-- C2.  Orphan signaling: a protected block of the existing file whose name
the newly rendered text no longer declares is reported as orphaned, and a
user-authored body is always either preserved in the merged output or
reported as orphaned — never silently dropped. -/
theorem orphan_signaled (old new : List String) (r : MergeResult)
    (X : String) (T : List String)
    (hm : merge old new = .ok r) (hT : lookupBody old X = some T) :
    (X ∉ declaredNames new → (X, T) ∈ r.orphaned) ∧
    (lookupBody r.text X = some T ∨ (X, T) ∈ r.orphaned) := by
  obtain ⟨oldSegs, newSegs, h1, h2, rfl⟩ := merge_eq hm
  have hTl : (blockBodies oldSegs).lookup X = some T := by
    simpa [lookupBody, h1] using hT
  have hmem : (X, T) ∈ blockBodies oldSegs := mem_of_lookup hTl
  have horph : X ∉ blockNames newSegs →
      (X, T) ∈ (blockBodies oldSegs).filter
        (fun p => !(blockNames newSegs).contains p.1) := by
    intro hnot
    refine List.mem_filter.mpr ⟨hmem, ?_⟩
    simp only [Bool.not_eq_true']
    exact (Bool.not_eq_true _).mp (fun hc => hnot (List.elem_iff.mp hc))
  constructor
  · intro hX
    have hnot : X ∉ blockNames newSegs := by
      intro hc
      exact hX (by simpa [declaredNames, h2] using hc)
    exact horph hnot
  · by_cases hX : X ∈ blockNames newSegs
    · left
      have hp := merge_text_parses h1 h2
      simp only [lookupBody, hp]
      exact bodies_substSegs_lookup_some hTl newSegs hX
    · right
      exact horph hX

/-- A scan whose remaining input ends inside a block fails with a malformed
block error. -/
theorem scan_err :
    ∀ (ls : List String) (acc : List Seg) (st : Option (String × String × List String)),
      scanUnmatched ls st.isSome = true →
      ∃ n, scanLines ls acc st = .error (.malformed n) := by
  intro ls
  induction ls with
  | nil =>
    intro acc st h
    match st with
    | none => simp [scanUnmatched] at h
    | some (stl, n, rb) => exact ⟨n, rfl⟩
  | cons l rest ih =>
    intro acc st h
    match st with
    | none =>
      cases hp : parseStartName l with
      | some n =>
        have h' : scanUnmatched rest true = true := by
          simpa [scanUnmatched, hp] using h
        obtain ⟨n', hn⟩ := ih acc (some (l, n, [])) (by simpa using h')
        exact ⟨n', by simpa [scanLines, hp] using hn⟩
      | none =>
        have h' : scanUnmatched rest false = true := by
          simpa [scanUnmatched, hp] using h
        obtain ⟨n', hn⟩ := ih (.raw l :: acc) none (by simpa using h')
        exact ⟨n', by simpa [scanLines, hp] using hn⟩
    | some (stl, n, rb) =>
      cases hE : isEndLine l with
      | true =>
        have h' : scanUnmatched rest false = true := by
          simpa [scanUnmatched, hE] using h
        obtain ⟨n', hn⟩ := ih (.block stl n rb.reverse l :: acc) none (by simpa using h')
        exact ⟨n', by simpa [scanLines, hE] using hn⟩
      | false =>
        have h' : scanUnmatched rest true = true := by
          simpa [scanUnmatched, hE] using h
        obtain ⟨n', hn⟩ := ih acc (some (stl, n, l :: rb)) (by simpa using h')
        exact ⟨n', by simpa [scanLines, hE] using hn⟩

/-- A file with an unmatched start marker fails to parse. -/
theorem parse_malformed {ls : List String} (h : hasUnmatchedStart ls = true) :
    ∃ n, parseLines ls = .error (.malformed n) :=
  scan_err ls [] none h

/-- C3.  Malformed-marker atomicity: when the existing file contains a
protected-region start marker with no matching end marker, the artifact is
recorded as failed with a `MergeError.malformed`, the output directory is
unchanged, and the existing file is byte-identical to its state before the
run. -/
theorem malformed_atomic (fs : FileSys) (p : String) (old rendered : List String)
    (hread : readFile fs p = some old) (hmal : hasUnmatchedStart old = true) :
    (∃ n, (processArtifact fs p rendered).1 = .failed (.malformed n)) ∧
    (processArtifact fs p rendered).2 = fs ∧
    readFile (processArtifact fs p rendered).2 p = some old := by
  obtain ⟨n, hn⟩ := parse_malformed hmal
  have hmerge : merge old rendered = .error (.malformed n) := by
    simp [merge, hn]
  refine ⟨⟨n, ?_⟩, ?_, ?_⟩ <;> simp [processArtifact, hread, hmerge]

/-- Witness for `malformed_atomic` at a concrete state: the target file has
a start marker and no end marker. -/
theorem malformed_atomic_witness :
    (∃ n,
      (processArtifact [("app/m.py", ["<protected name=\"x\">", "body"])]
        "app/m.py" ["fresh"]).1 = .failed (.malformed n)) ∧
    (processArtifact [("app/m.py", ["<protected name=\"x\">", "body"])]
      "app/m.py" ["fresh"]).2 = [("app/m.py", ["<protected name=\"x\">", "body"])] ∧
    readFile (processArtifact [("app/m.py", ["<protected name=\"x\">", "body"])]
      "app/m.py" ["fresh"]).2 "app/m.py" = some ["<protected name=\"x\">", "body"] :=
  malformed_atomic [("app/m.py", ["<protected name=\"x\">", "body"])]
    "app/m.py" ["<protected name=\"x\">", "body"] ["fresh"] rfl rfl

/-- Witness for `protected_round_trip`: a block `custom` edited to hold
`"  my edits"` survives a regeneration that adds a line and re-indents the
markers. -/
theorem protected_round_trip_witness :
    lookupBody ["import a", "import b", "  <protected name=\"custom\">",
      "  my edits", "  </protected>", "end"] "custom" = some ["  my edits"] ∧
    lookupMarkers ["import a", "import b", "  <protected name=\"custom\">",
      "  my edits", "  </protected>", "end"] "custom" =
      lookupMarkers ["import a", "import b", "  <protected name=\"custom\">",
        "    placeholder", "  </protected>", "end"] "custom" :=
  protected_round_trip
    ["import a", "<protected name=\"custom\">", "  my edits", "</protected>", "end"]
    ["import a", "import b", "  <protected name=\"custom\">", "    placeholder",
      "  </protected>", "end"]
    ⟨["import a", "import b", "  <protected name=\"custom\">", "  my edits",
      "  </protected>", "end"], []⟩
    "custom" ["  my edits"] rfl rfl (by decide)

/-- Witness for `orphan_signaled`: a template that drops the block `custom`
yields a merge reporting `custom` with its user body as orphaned. -/
theorem orphan_signaled_witness :
    ("custom" ∉ declaredNames ["import a", "import b", "end"] →
      ("custom", ["  my edits"]) ∈
        (MergeResult.mk ["import a", "import b", "end"]
          [("custom", ["  my edits"])]).orphaned) ∧
    (lookupBody (MergeResult.mk ["import a", "import b", "end"]
        [("custom", ["  my edits"])]).text "custom" = some ["  my edits"] ∨
      ("custom", ["  my edits"]) ∈
        (MergeResult.mk ["import a", "import b", "end"]
          [("custom", ["  my edits"])]).orphaned) :=
  orphan_signaled
    ["import a", "<protected name=\"custom\">", "  my edits", "</protected>", "end"]
    ["import a", "import b", "end"]
    ⟨["import a", "import b", "end"], [("custom", ["  my edits"])]⟩
    "custom" ["  my edits"] rfl rfl

/-- Merging a parseable file with itself, under unique block names, returns
the file unchanged with no orphans. -/
theorem merge_self {a : List String} {segs : List Seg}
    (h : parseLines a = .ok segs) (hnd : (blockNames segs).Nodup) :
    merge a a = .ok ⟨a, []⟩ := by
  simp only [merge, h]
  have htext : renderDoc (substSegs (blockBodies segs) segs) = a := by
    rw [substSegs_self hnd]
    exact renderDoc_of_parses (parses_of_parseLines h)
  have horph : (blockBodies segs).filter
      (fun p => !(blockNames segs).contains p.1) = [] := by
    refine List.filter_eq_nil_iff.mpr ?_
    intro p hp
    have hmem : p.1 ∈ blockNames segs := List.mem_map_of_mem Prod.fst hp
    simp
    exact hmem
  rw [htext, horph]

/-- Re-merging a merge's output with the same newly rendered text, under
unique block names in the new text, returns the output unchanged with no
orphans. -/
theorem merge_idem {a b : List String} {r : MergeResult}
    (hm : merge a b = .ok r) (hnd : NodupNames b) :
    merge r.text b = .ok ⟨r.text, []⟩ := by
  obtain ⟨oldSegs, newSegs, h1, h2, rfl⟩ := merge_eq hm
  have hp := merge_text_parses h1 h2
  have hndn : (blockNames newSegs).Nodup := hnd newSegs h2
  simp only [merge, hp, h2]
  have htext : substSegs (blockBodies (substSegs (blockBodies oldSegs) newSegs)) newSegs =
      substSegs (blockBodies oldSegs) newSegs := substSegs_twice hndn
  have horph : (blockBodies (substSegs (blockBodies oldSegs) newSegs)).filter
      (fun p => !(blockNames newSegs).contains p.1) = [] := by
    refine List.filter_eq_nil_iff.mpr ?_
    intro p hp'
    have h3 : p.1 ∈ blockNames (substSegs (blockBodies oldSegs) newSegs) :=
      List.mem_map_of_mem Prod.fst hp'
    rw [blockNames_substSegs] at h3
    simp
    exact h3
  rw [htext, horph]

/-- C7.  Idempotence of merge and generation: merging the same inputs twice
gives the same result, and re-running the per-artifact generation step with
the same rendered text, under the spec's unique-block-name invariant, leaves
the output directory byte-identical to the first run's result. -/
theorem merge_generate_idempotent :
    (∀ (a b : List String) (r1 r2 : MergeResult),
      merge a b = .ok r1 → merge a b = .ok r2 → r1 = r2) ∧
    (∀ (fs : FileSys) (p : String) (rendered : List String), NodupNames rendered →
      (processArtifact (processArtifact fs p rendered).2 p rendered).2 =
        (processArtifact fs p rendered).2) := by
  constructor
  · intro a b r1 r2 h1 h2
    rw [h1] at h2
    cases h2
    rfl
  · intro fs p rendered hnd
    cases hread : readFile fs p with
    | none =>
      simp only [processArtifact, hread]
      have hr2 : readFile (writeFile fs p rendered) p = some rendered := by
        simp [readFile, writeFile, List.lookup_cons]
      simp only [hr2]
      cases hpl : parseLines rendered with
      | error e =>
        have hme : merge rendered rendered = .error e := by simp [merge, hpl]
        simp [hme]
      | ok segs =>
        have hms := merge_self hpl (hnd segs hpl)
        simp [hms]
    | some old =>
      cases hm : merge old rendered with
      | error e => simp [processArtifact, hread, hm]
      | ok r =>
        by_cases heq : r.text = old
        · simp [processArtifact, hread, hm, heq]
        · have hmi := merge_idem hm hnd
          have hr2 : readFile (writeFile fs p r.text) p = some r.text := by
            simp [readFile, writeFile, List.lookup_cons]
          simp [processArtifact, hread, hm, heq, hr2, hmi]

/-- Witness for `merge_generate_idempotent`: determinism of a concrete merge
and a fixpoint second generation run over a concrete state. -/
theorem merge_generate_idempotent_witness :
    (MergeResult.mk ["import a", "import b", "  <protected name=\"custom\">",
        "  my edits", "  </protected>", "end"] [] =
      MergeResult.mk ["import a", "import b", "  <protected name=\"custom\">",
        "  my edits", "  </protected>", "end"] []) ∧
    (processArtifact
        (processArtifact
          [("app/m.py", ["import a", "<protected name=\"custom\">", "  my edits",
            "</protected>", "end"])]
          "app/m.py"
          ["import a", "import b", "  <protected name=\"custom\">",
            "    placeholder", "  </protected>", "end"]).2
        "app/m.py"
        ["import a", "import b", "  <protected name=\"custom\">",
          "    placeholder", "  </protected>", "end"]).2 =
      (processArtifact
        [("app/m.py", ["import a", "<protected name=\"custom\">", "  my edits",
          "</protected>", "end"])]
        "app/m.py"
        ["import a", "import b", "  <protected name=\"custom\">",
          "    placeholder", "  </protected>", "end"]).2 := by
  constructor
  · exact merge_generate_idempotent.1
      ["import a", "<protected name=\"custom\">", "  my edits", "</protected>", "end"]
      ["import a", "import b", "  <protected name=\"custom\">", "    placeholder",
        "  </protected>", "end"]
      _ _ rfl rfl
  · refine merge_generate_idempotent.2 _ _ _ ?_
    intro segs h
    have h' : (Except.ok [Seg.raw "import a", Seg.raw "import b",
        Seg.block "  <protected name=\"custom\">" "custom" ["    placeholder"]
          "  </protected>", Seg.raw "end"] :
        Except MergeError (List Seg)) = .ok segs := h
    cases h'
    decide

/-! ## Claim theorems: renderer and resolver -/

/-- Running a list whose prefix succeeds and whose next element fails,
fails with that element's error. -/
theorem runList_append_err {f : Val → Except RenderError String}
    {pre : List Val} {s : String} (hpre : runList f pre = .ok s)
    {v : Val} {err : RenderError} (hv : f v = .error err) (post : List Val) :
    runList f (pre ++ v :: post) = .error err := by
  induction pre generalizing s with
  | nil => simp [runList, hv]
  | cons w pre' ih =>
    simp only [runList] at hpre
    cases hw : f w with
    | error e => rw [hw] at hpre; cases hpre
    | ok sw =>
      rw [hw] at hpre
      cases hp' : runList f pre' with
      | error e => rw [hp'] at hpre; cases hpre
      | ok s' =>
        show runList f (w :: (pre' ++ v :: post)) = .error err
        simp only [runList, hw, ih hp']

/-- Evaluation that reaches an unbound variable reference fails with a
`missingVar` error carrying exactly that variable's name. -/
theorem evalT_unbound {t : Tmpl} {ctx : Ctx} {n : String}
    (h : UnboundUse t ctx n) : evalT t ctx = .error (.missingVar n) := by
  induction h with
  | var hl => simp [evalT, hl]
  | seq_left _ ih => simp [evalT, ih]
  | seq_right ha _ ih => simp [evalT, ha, ih]
  | cond_scrut hl => simp [evalT, hl]
  | cond_then hl ht _ ih => simp [evalT, hl, ht, ih]
  | cond_else hl ht _ ih => simp [evalT, hl, ht, ih]
  | iter_scrut hl => simp [evalT, hl]
  | iter_body hl hpre _ ih =>
    simp only [evalT, hl]
    exact runList_append_err hpre ih _

/-- C4.  Missing-variable failure: when the template read for the render
call reaches a variable reference the context does not bind, `render` fails
with a `RenderError.missingVar` carrying that variable's name, and never
returns text with a silent empty-string substitution. -/
theorem render_missing_variable (e : TemplateEngine) (fs : TemplateFS)
    (o : TemplateOptions) (t : Tmpl) (n : String)
    (hfind : fs.lookup (pathJoin e.templatesDir o.templateName) = some t)
    (hub : UnboundUse t o.data n) :
    e.render fs o = .error (.missingVar n) ∧ ∀ s, e.render fs o ≠ .ok s := by
  have h1 : e.render fs o = .error (.missingVar n) := by
    simp [TemplateEngine.render, hfind, evalT_unbound hub]
  refine ⟨h1, fun s hs => ?_⟩
  rw [h1] at hs
  cases hs

/-- Witness for `render_missing_variable`: the spec's `Invoice` scenario, a
router template referencing `amount` after the field was removed from the
definition. -/
theorem render_missing_variable_witness :
    TemplateEngine.render ⟨"templates"⟩ [("templates/router.ejs", .var "amount")]
      ⟨[("id", .str "1")], "router.ejs"⟩ = .error (.missingVar "amount") ∧
    ∀ s, TemplateEngine.render ⟨"templates"⟩
      [("templates/router.ejs", .var "amount")]
      ⟨[("id", .str "1")], "router.ejs"⟩ ≠ .ok s :=
  render_missing_variable ⟨"templates"⟩ [("templates/router.ejs", .var "amount")]
    ⟨[("id", .str "1")], "router.ejs"⟩ (.var "amount") "amount" rfl
    (UnboundUse.var rfl)

/-- Ambient-threaded expansion never consults the ambient state. -/
theorem evalAmb_eq (amb : Ambient) :
    ∀ (t : Tmpl) (ctx : Ctx), evalAmb amb t ctx = evalT t ctx := by
  intro t
  induction t with
  | lit s => intro ctx; rfl
  | var n => intro ctx; rfl
  | seq a b iha ihb => intro ctx; simp [evalAmb, evalT, iha, ihb]
  | cond c t e iht ihe => intro ctx; simp [evalAmb, evalT, iht, ihe]
  | iter n x body ihb =>
    intro ctx
    simp only [evalAmb, evalT]
    cases hl : List.lookup n ctx with
    | none => rfl
    | some v =>
      cases v with
      | str s => rfl
      | bool b => rfl
      | list vs =>
        show runList (fun v => evalAmb amb body ((x, v) :: ctx)) vs =
          runList (fun v => evalT body ((x, v) :: ctx)) vs
        congr 1
        funext w
        exact ihb ((x, w) :: ctx)

/-- C5.  Renderer determinism: the render result does not depend on the
host's ambient state, and equals the pure function of the template file
system, the engine and the options — so two calls with the same template
and context yield byte-identical output. -/
theorem render_deterministic (a1 a2 : Ambient) (e : TemplateEngine)
    (fs : TemplateFS) (o : TemplateOptions) :
    renderAmb a1 e fs o = renderAmb a2 e fs o ∧
    renderAmb a1 e fs o = e.render fs o := by
  have h : ∀ a, renderAmb a e fs o = e.render fs o := by
    intro a
    simp only [renderAmb, TemplateEngine.render]
    cases fs.lookup (pathJoin e.templatesDir o.templateName) with
    | none => rfl
    | some t => exact evalAmb_eq a t o.data
  exact ⟨(h a1).trans (h a2).symm, h a1⟩

/-- Async-path expansion agrees with synchronous expansion. -/
theorem evalAsync_eq : ∀ (t : Tmpl) (ctx : Ctx), evalAsync t ctx = evalT t ctx := by
  intro t
  induction t with
  | lit s => intro ctx; rfl
  | var n => intro ctx; rfl
  | seq a b iha ihb => intro ctx; simp [evalAsync, evalT, iha, ihb]
  | cond c t e iht ihe => intro ctx; simp [evalAsync, evalT, iht, ihe]
  | iter n x body ihb =>
    intro ctx
    simp only [evalAsync, evalT]
    cases hl : List.lookup n ctx with
    | none => rfl
    | some v =>
      cases v with
      | str s => rfl
      | bool b => rfl
      | list vs =>
        show runList (fun v => evalAsync body ((x, v) :: ctx)) vs =
          runList (fun v => evalT body ((x, v) :: ctx)) vs
        congr 1
        funext w
        exact ihb ((x, w) :: ctx)

/-- C8.  Sync/async renderer agreement: `renderAsync` returns exactly what
`render` returns on the same template directory, template name and data (in
particular they agree whenever rendering succeeds). -/
theorem render_async_agree (e : TemplateEngine) (fs : TemplateFS)
    (o : TemplateOptions) : e.renderAsync fs o = e.render fs o := by
  simp only [TemplateEngine.renderAsync, TemplateEngine.render]
  cases fs.lookup (pathJoin e.templatesDir o.templateName) with
  | none => rfl
  | some t => exact evalAsync_eq t o.data

/-- C9.  Engine statelessness: a render call leaves the engine (whose only
field is `templatesDir`) unchanged, and every call reads the template from
the file system passed at call time — writing new content at the template's
path makes the very next render expand that new content. -/
theorem engine_stateless (e : TemplateEngine) (fs : TemplateFS)
    (o : TemplateOptions) :
    (e.renderM fs o).2 = e ∧ (e.renderAsyncM fs o).2 = e ∧
    ∀ t, e.render (fs.write (pathJoin e.templatesDir o.templateName) t) o =
      evalT t o.data := by
  refine ⟨rfl, rfl, ?_⟩
  intro t
  simp [TemplateEngine.render, TemplateFS.write, List.lookup_cons]

/-- C10.  Path containment is absent at the render interface: a template
name containing `..` segments resolves, through the source's
`join(templatesDir, templateName)`, to a path outside `templatesDir`, and
`render` reads and renders the file at that outside path. -/
theorem render_path_traversal :
    List.IsInfix "..".data "../secret/key.txt".data ∧
    pathJoin "templates" "../secret/key.txt" = "secret/key.txt" ∧
    (("templates/".data).isPrefixOf ("secret/key.txt".data) = false) ∧
    TemplateEngine.render ⟨"templates"⟩ [("secret/key.txt", .lit "LEAKED")]
      ⟨[], "../secret/key.txt"⟩ = .ok "LEAKED" :=
  ⟨by decide, by decide, by decide, rfl⟩

/-- C6.  Two-tier template resolution: the user-override tree is searched
first, the built-in default tree is used only when the user tree has no
match, and resolution fails with `templateNotFound` when neither matches. -/
theorem resolve_two_tier (tree : List String) (artifactKind stack : String) :
    (pathExists tree (userTemplatePath stack artifactKind) = true →
      resolve tree artifactKind stack = .ok (userTemplatePath stack artifactKind)) ∧
    (pathExists tree (userTemplatePath stack artifactKind) = false →
      pathExists tree (defaultTemplatePath stack artifactKind) = true →
      resolve tree artifactKind stack = .ok (defaultTemplatePath stack artifactKind)) ∧
    (pathExists tree (userTemplatePath stack artifactKind) = false →
      pathExists tree (defaultTemplatePath stack artifactKind) = false →
      resolve tree artifactKind stack = .error (.templateNotFound artifactKind stack)) := by
  refine ⟨?_, ?_, ?_⟩
  · intro h
    simp [resolve, h]
  · intro h1 h2
    simp [resolve, h1, h2]
  · intro h1 h2
    simp [resolve, h1, h2]

/-- Witness for `resolve_two_tier`: a tree with a user override for `model`,
only a default for `crud`, and nothing for `router`. -/
theorem resolve_two_tier_witness :
    resolve ["templates_user/fastapi/model", "core/integrations/fastapi/crud"]
      "model" "fastapi" = .ok "templates_user/fastapi/model" ∧
    resolve ["templates_user/fastapi/model", "core/integrations/fastapi/crud"]
      "crud" "fastapi" = .ok "core/integrations/fastapi/crud" ∧
    resolve ["templates_user/fastapi/model", "core/integrations/fastapi/crud"]
      "router" "fastapi" = .error (.templateNotFound "router" "fastapi") :=
  ⟨(resolve_two_tier _ "model" "fastapi").1 (by decide),
   (resolve_two_tier _ "crud" "fastapi").2.1 (by decide) (by decide),
   (resolve_two_tier _ "router" "fastapi").2.2 (by decide) (by decide)⟩
